import Mathlib

/-!
Shallow embedding of the download orchestration engine of
`src/src-tauri/src/download_manager.rs`: the obfuscated-image decryption
(`decrypt_img_data` / `aes_cbc_decrypt`), the per-item processing pipelines
(`process_episode` / `process_album_plus` / `save_archive`) as event and
filesystem-action traces, the shared progress counters as an interleaved
atomic-action system, and the spawn-time filename assignment.

External crates are abstracted as parameters: the AES-256 block cipher of
the `aes` crate as a block function, the image-container sniff of the
`image` crate as a Boolean predicate.  Bytes and machine integers are
modelled as `Nat` (the u32 counters never overflow in the modelled
scenarios).
-/

set_option linter.unusedVariables false

namespace BMD

/-- Result of a Rust function that may return `Ok`, return `Err`, or panic. -/
inductive DResult where
  | ok (data : List Nat)
  | err (msg : String)
  | crash
deriving DecidableEq

/-- Value of one character of the standard base64 alphabet. -/
def b64Val (c : Char) : Option Nat :=
  if 'A' ≤ c ∧ c ≤ 'Z' then some (c.toNat - 65)
  else if 'a' ≤ c ∧ c ≤ 'z' then some (c.toNat - 97 + 26)
  else if '0' ≤ c ∧ c ≤ '9' then some (c.toNat - 48 + 52)
  else if c = '+' then some 62
  else if c = '/' then some 63
  else none

/-- Decoding of `base64::engine::general_purpose::STANDARD` (canonical
padding required, trailing bits of a padded final group must be zero),
taken on the character list of the input string.  `none` models a decode
error. -/
def base64Decode : List Char → Option (List Nat)
  | [] => some []
  | a :: b :: c :: d :: rest =>
    match b64Val a, b64Val b with
    | some va, some vb =>
      if c = '=' then
        if d = '=' ∧ rest = [] ∧ vb % 16 = 0 then some [va * 4 + vb / 16] else none
      else
        match b64Val c with
        | some vc =>
          if d = '=' then
            if rest = [] ∧ vc % 4 = 0 then some [va * 4 + vb / 16, vb % 16 * 16 + vc / 4]
            else none
          else
            match b64Val d with
            | some vd =>
              match base64Decode rest with
              | some r =>
                some ((va * 4 + vb / 16) :: (vb % 16 * 16 + vc / 4) :: (vc % 4 * 64 + vd) :: r)
              | none => none
            | none => none
        | none => none
    | _, _ => none
  | _ => none

/-- Hexadecimal value of a character, if any. -/
def hexVal (c : Char) : Option Nat :=
  if '0' ≤ c ∧ c ≤ '9' then some (c.toNat - 48)
  else if 'a' ≤ c ∧ c ≤ 'f' then some (c.toNat - 97 + 10)
  else if 'A' ≤ c ∧ c ≤ 'F' then some (c.toNat - 65 + 10)
  else none

/-- Model of `percent_decode_str(..).decode_utf8_lossy()`: every `%XX` hex
escape is replaced by the byte it denotes (the UTF-8 lossy re-reading is the
identity on the ASCII tokens the theorems use). -/
def percentDecodeAux : Nat → List Char → List Char
  | _, [] => []
  | 0, l => l
  | fuel + 1, c :: rest =>
    if c = '%' then
      match rest with
      | a :: b :: rest2 =>
        match hexVal a, hexVal b with
        | some x, some y => Char.ofNat (x * 16 + y) :: percentDecodeAux fuel rest2
        | _, _ => '%' :: percentDecodeAux fuel rest
      | _ => '%' :: percentDecodeAux fuel rest
    else c :: percentDecodeAux fuel rest

/-- Model of `percent_decode_str(..).decode_utf8_lossy()`, entry point of
`percentDecodeAux` with enough fuel for the whole input. -/
def percentDecode (l : List Char) : List Char := percentDecodeAux l.length l

/-- Big-endian u32 read of the first four bytes (`BigEndian::read_u32`). -/
def readBe32 : List Nat → Nat
  | b1 :: b2 :: b3 :: b4 :: _ => ((b1 * 256 + b2) * 256 + b3) * 256 + b4
  | _ => 0

/-- Big-endian u32 byte encoding, inverse of `readBe32` below `2 ^ 32`. -/
def be32bytes (n : Nat) : List Nat :=
  [n / 16777216 % 256, n / 65536 % 256, n / 256 % 256, n % 256]

/-- Pointwise XOR of two byte blocks (the CBC chaining loop body). -/
def zipXor (a b : List Nat) : List Nat := List.zipWith (fun x y => x ^^^ y) a b

/-- Split into 16-byte chunks, as `slice::chunks(16)` (a final chunk may be
short when the length is not a multiple of 16).  The fuel argument of the
helper only serves structural termination; `l.length` steps always
suffice. -/
def chunks16Aux : Nat → List Nat → List (List Nat)
  | _, [] => []
  | 0, _ => []
  | fuel + 1, x :: xs => ((x :: xs).take 16) :: chunks16Aux fuel ((x :: xs).drop 16)

/-- Split into 16-byte chunks, as `slice::chunks(16)`. -/
def chunks16 (l : List Nat) : List (List Nat) := chunks16Aux l.length l

/-- CBC-mode decryption loop of `aes_cbc_decrypt`: each ciphertext block is
decrypted with the block cipher `decB`, XORed with the previous ciphertext
block (initially the IV), and the ciphertext block becomes the next
chaining value; the decrypted blocks are concatenated. -/
def cbcDecBlocks (decB : List Nat → List Nat) (prev : List Nat) : List (List Nat) → List Nat
  | [] => []
  | c :: rest => zipXor (decB c) prev ++ cbcDecBlocks decB c rest

/-- Final PKCS#7 unpadding step of `aes_cbc_decrypt`: the value of the last
decrypted byte is the padding length and that many trailing bytes are
stripped.  `none` models the panic on empty data (`last().unwrap()`) and
the out-of-range slice when the padding length exceeds the data length. -/
def pkcs7_unpad (d : List Nat) : Option (List Nat) :=
  match d.getLast? with
  | none => none
  | some k => if d.length < k then none else some (d.take (d.length - k))

/-- `aes_cbc_decrypt(encrypted_data, key, iv)` with the AES-256 block
decryption abstracted as `decB`.  `none` models a panic: a key that is not
32 bytes or an IV that is not 16 bytes (`GenericArray::from_slice`), a
final chunk shorter than 16 bytes (`GenericArray::clone_from_slice`), and
the two unpadding panics of `pkcs7_unpad`. -/
def aes_cbc_decrypt (decB : List Nat → List Nat) (encrypted key iv : List Nat) : Option (List Nat) :=
  if key.length ≠ 32 then none
  else if iv.length ≠ 16 then none
  else if encrypted.length % 16 ≠ 0 then none
  else pkcs7_unpad (cbcDecBlocks decB iv (chunks16 encrypted))

/-- The Rust `?` on the base64 decode result: propagate the decode error,
otherwise continue with the token bytes. -/
def withToken (o : Option (List Nat)) (f : List Nat → DResult) : DResult :=
  match o with
  | none => .err "base64解码失败"
  | some tk => f tk

/-- The panic-or-continue pattern around `aes_cbc_decrypt` (the source
calls it infallibly; `none` is the modelled panic). -/
def crashOr (f : List Nat → DResult) (o : Option (List Nat)) : DResult :=
  match o with
  | none => .crash
  | some d => f d

@[simp] theorem withToken_some (tk : List Nat) (f : List Nat → DResult) :
    withToken (some tk) f = f tk := rfl

@[simp] theorem withToken_none (f : List Nat → DResult) :
    withToken none f = .err "base64解码失败" := rfl

@[simp] theorem crashOr_some (f : List Nat → DResult) (d : List Nat) :
    crashOr f (some d) = f d := rfl

@[simp] theorem crashOr_none (f : List Nat → DResult) : crashOr f none = .crash := rfl

/-- `decrypt_img_data(img_data, cpx)`.  The image-container sniff
`image::guess_format(..).is_ok()` is abstracted as `guessOk` and the keyed
AES-256 block decryption of the `aes` crate as `decB` (the source builds
the cipher from the trailing `key` bytes; the model checks the 32-byte key
length inside `aes_cbc_decrypt` and lets `decB` stand for the keyed
cipher).  `DResult.crash` models a panic. -/
def decrypt_img_data (guessOk : List Nat → Bool) (decB : List Nat → List Nat)
    (img : List Nat) (cpx : String) : DResult :=
  if guessOk img then .ok img
  else
    match img with
    | [] => .crash
    | flag :: _ =>
      if flag ≠ 1 then .err ("解密图片数据失败，预料之外的图片数据标志位: " ++ Nat.repr flag)
      else if img.length < 5 then .crash
      else
        let dl := readBe32 (img.drop 1)
        if dl + 5 > img.length then .ok img
        else
          withToken (base64Decode (percentDecode cpx.toList)) fun tk =>
            if tk.length < 76 then .crash
            else
              let iv := (tk.drop 60).take 16
              let key := img.drop (dl + 5)
              let content := (img.drop 5).take dl
              if content.length < 20496 then
                crashOr (fun d => .ok d) (aes_cbc_decrypt decB content key iv)
              else
                crashOr (fun d => .ok (d ++ content.drop 20496))
                  (aes_cbc_decrypt decB (content.take 20496) key iv)

/-- PKCS#7 padding to a multiple of 16 bytes (always adds 1..16 bytes). -/
def pkcs7pad (p : List Nat) : List Nat :=
  p ++ List.replicate (16 - p.length % 16) (16 - p.length % 16)

/-- Modelled from the spec: CBC-mode encryption with block cipher `encB`,
the inverse of the decryption loop `cbcDecBlocks`.  The repository only
ships the decryption side; §4.6 documents the scheme as a 256-bit block
cipher in CBC mode. -/
def cbcEncBlocks (encB : List Nat → List Nat) (prev : List Nat) : List (List Nat) → List Nat
  | [] => []
  | p :: rest =>
    let c := encB (zipXor p prev)
    c ++ cbcEncBlocks encB c rest

/-- Modelled from the spec: the documented obfuscation scheme of §4.6 that
`decrypt_img_data` undoes — a leading flag byte 1, a 4-byte big-endian
content length, the AES-256-CBC encrypted content with PKCS#7 padding
(whole plaintext when short, only a leading head padded to the fixed
20496-byte chunk when long, with the tail kept as plain bytes), and the
decryption key appended as the trailing bytes. -/
def encrypt_img_data (encB : List Nat → List Nat) (p key iv : List Nat) : List Nat :=
  let content :=
    if p.length < 20480 then cbcEncBlocks encB iv (chunks16 (pkcs7pad p))
    else cbcEncBlocks encB iv (chunks16 (pkcs7pad (p.take 20480))) ++ p.drop 20480
  1 :: (be32bytes content.length ++ (content ++ key))

theorem getLast?_replicate_pos (a k : Nat) (hk : 1 ≤ k) :
    (List.replicate k a).getLast? = some a := by
  cases k with
  | zero => omega
  | succ m => rw [List.replicate_succ']; exact List.getLast?_concat _

theorem pkcs7_unpad_append (p : List Nat) (k : Nat) (hk : 1 ≤ k) :
    pkcs7_unpad (p ++ List.replicate k k) = some p := by
  unfold pkcs7_unpad
  rw [List.getLast?_append, getLast?_replicate_pos k k hk]
  show (if (p ++ List.replicate k k).length < k then none
    else some ((p ++ List.replicate k k).take ((p ++ List.replicate k k).length - k))) = some p
  have hlen : (p ++ List.replicate k k).length = p.length + k := by
    simp [List.length_append, List.length_replicate]
  rw [hlen, if_neg (by omega)]
  have h2 : p.length + k - k = p.length := by omega
  rw [h2, List.take_left]

/-- C5: for every plaintext `p` and every padding amount `k` in 1..16 —
one value for each plaintext length modulo 16 — the PKCS#7 unpadding step
at the end of `aes_cbc_decrypt` strips exactly the `k` appended padding
bytes (each of value `k`) and nothing else, recovering `p`. -/
theorem c5_pkcs7_unpad_exact (p : List Nat) (k : Nat) (h1 : 1 ≤ k) (h2 : k ≤ 16) :
    pkcs7_unpad (p ++ List.replicate k k) = some p :=
  pkcs7_unpad_append p k h1

theorem c5_pkcs7_unpad_exact_witness :
    pkcs7_unpad ([9, 9, 9] ++ List.replicate 13 13) = some [9, 9, 9] :=
  c5_pkcs7_unpad_exact [9, 9, 9] 13 (by decide) (by decide)

theorem zipXor_length (a b : List Nat) : (zipXor a b).length = min a.length b.length := by
  simp [zipXor]

theorem zipXor_cancel : ∀ (a b : List Nat), a.length = b.length → zipXor (zipXor a b) b = a
  | [], [], _ => rfl
  | [], _ :: _, h => by simp at h
  | _ :: _, [], h => by simp at h
  | x :: a, y :: b, h => by
    simp only [zipXor, List.zipWith_cons_cons] at *
    rw [Nat.xor_cancel_right]
    have ih := zipXor_cancel a b (by simpa using h)
    simp only [zipXor] at ih
    rw [ih]

theorem chunks16Aux_fuel : ∀ (f1 f2 : Nat) (l : List Nat), l.length ≤ f1 → l.length ≤ f2 →
    chunks16Aux f1 l = chunks16Aux f2 l
  | f1, f2, [], _, _ => by cases f1 <;> cases f2 <;> rfl
  | 0, _, x :: xs, h1, _ => by simp at h1
  | _ + 1, 0, x :: xs, _, h2 => by simp at h2
  | f1 + 1, f2 + 1, x :: xs, h1, h2 => by
    simp only [chunks16Aux]
    congr 1
    exact chunks16Aux_fuel f1 f2 ((x :: xs).drop 16)
      (by simp only [List.length_drop, List.length_cons] at *; omega)
      (by simp only [List.length_drop, List.length_cons] at *; omega)

theorem chunks16Aux_step (f : Nat) (l : List Nat) (h : l ≠ []) :
    chunks16Aux (f + 1) l = l.take 16 :: chunks16Aux f (l.drop 16) := by
  cases l with
  | nil => exact absurd rfl h
  | cons x xs => rfl

theorem chunks16_cons16 (l r : List Nat) (h : l.length = 16) :
    chunks16 (l ++ r) = l :: chunks16 r := by
  unfold chunks16
  have hlen : (l ++ r).length = (15 + r.length) + 1 := by
    simp [List.length_append, h]; omega
  rw [hlen, chunks16Aux_step _ _ (by intro hc; apply_fun List.length at hc; simp [h] at hc)]
  rw [List.take_left' h, List.drop_left' h]
  congr 1
  exact chunks16Aux_fuel _ _ r (by omega) (by omega)

/-- CBC decryption inverts CBC encryption on block-aligned data, for any
block cipher pair `encB` / `decB` that are mutually inverse on 16-byte
blocks (the contract of `Aes256::encrypt_block` / `decrypt_block`). -/
theorem cbc_roundtrip (decB encB : List Nat → List Nat)
    (hinv : ∀ b, b.length = 16 → decB (encB b) = b)
    (hlen : ∀ b, b.length = 16 → (encB b).length = 16) :
    ∀ (l prev : List Nat), l.length % 16 = 0 → prev.length = 16 →
      cbcDecBlocks decB prev (chunks16 (cbcEncBlocks encB prev (chunks16 l))) = l
  | l, prev, hmod, hprev => by
    rcases eq_or_ne l [] with hnil | hne
    · subst hnil; rfl
    · have hlong : 16 ≤ l.length := by
        have := List.length_pos.mpr hne
        omega
      have htake : (l.take 16).length = 16 := by
        simp [List.length_take]; omega
      have hsplit : l = l.take 16 ++ l.drop 16 := (List.take_append_drop 16 l).symm
      rw [hsplit, chunks16_cons16 _ _ htake]
      simp only [cbcEncBlocks]
      have hxlen : (zipXor (l.take 16) prev).length = 16 := by
        rw [zipXor_length, htake, hprev]; exact Nat.min_self 16
      have hclen : (encB (zipXor (l.take 16) prev)).length = 16 := hlen _ hxlen
      rw [chunks16_cons16 _ _ hclen]
      simp only [cbcDecBlocks]
      rw [hinv _ hxlen, zipXor_cancel _ _ (by rw [htake, hprev])]
      congr 1
      exact cbc_roundtrip decB encB hinv hlen (l.drop 16) _
        (by simp only [List.length_drop]; omega) hclen
termination_by l => l.length
decreasing_by simp only [List.length_drop]; omega

/-- The ciphertext produced by block-aligned CBC encryption has the length
of its input. -/
theorem cbcEnc_length (encB : List Nat → List Nat)
    (hlen : ∀ b, b.length = 16 → (encB b).length = 16) :
    ∀ (l prev : List Nat), l.length % 16 = 0 → prev.length = 16 →
      (cbcEncBlocks encB prev (chunks16 l)).length = l.length
  | l, prev, hmod, hprev => by
    rcases eq_or_ne l [] with hnil | hne
    · subst hnil; rfl
    · have hlong : 16 ≤ l.length := by
        have := List.length_pos.mpr hne
        omega
      have htake : (l.take 16).length = 16 := by
        simp [List.length_take]; omega
      conv_lhs => rw [(List.take_append_drop 16 l).symm]
      rw [chunks16_cons16 _ _ htake]
      simp only [cbcEncBlocks, List.length_append]
      have hxlen : (zipXor (l.take 16) prev).length = 16 := by
        rw [zipXor_length, htake, hprev]; exact Nat.min_self 16
      rw [hlen _ hxlen]
      rw [cbcEnc_length encB hlen (l.drop 16) _ (by simp only [List.length_drop]; omega)
        (hlen _ hxlen)]
      simp only [List.length_drop]
      omega
termination_by l => l.length
decreasing_by simp only [List.length_drop]; omega

theorem pkcs7pad_length (p : List Nat) :
    (pkcs7pad p).length = p.length + (16 - p.length % 16) := by
  simp [pkcs7pad]

theorem pkcs7pad_mod (p : List Nat) : (pkcs7pad p).length % 16 = 0 := by
  rw [pkcs7pad_length]
  omega

theorem be32bytes_length (n : Nat) : (be32bytes n).length = 4 := rfl

theorem readBe32_be32bytes (n : Nat) (h : n < 4294967296) (rest : List Nat) :
    readBe32 (be32bytes n ++ rest) = n := by
  simp only [be32bytes, List.cons_append, List.nil_append, readBe32]
  omega

/-- Evaluation of `decrypt_img_data` on a well-formed obfuscated packet
`[1] ++ be32(len content) ++ content ++ key`: the header checks pass and
the function reaches the content decryption, whose two threshold branches
are returned symbolically. -/
theorem decrypt_img_data_packet
    (guessOk : List Nat → Bool) (decB : List Nat → List Nat)
    (c key : List Nat) (cpx : String) (tk : List Nat)
    (hb64 : base64Decode (percentDecode cpx.toList) = some tk)
    (htk : 76 ≤ tk.length)
    (hc : c.length < 4294967296)
    (hguess : guessOk (1 :: (be32bytes c.length ++ (c ++ key))) = false) :
    decrypt_img_data guessOk decB (1 :: (be32bytes c.length ++ (c ++ key))) cpx =
      (if c.length < 20496 then
        crashOr (fun d => DResult.ok d) (aes_cbc_decrypt decB c key ((tk.drop 60).take 16))
      else
        crashOr (fun d => DResult.ok (d ++ c.drop 20496))
          (aes_cbc_decrypt decB (c.take 20496) key ((tk.drop 60).take 16))) := by
  have hread : readBe32 ((1 :: (be32bytes c.length ++ (c ++ key))).drop 1) = c.length := by
    rw [List.drop_one, List.tail_cons]
    exact readBe32_be32bytes _ hc _
  have hlistlen : (1 :: (be32bytes c.length ++ (c ++ key))).length
      = c.length + key.length + 5 := by
    simp only [List.length_cons, List.length_append, be32bytes_length]
    omega
  have hdrop5 : (1 :: (be32bytes c.length ++ (c ++ key))).drop 5 = c ++ key := by
    rw [show (1 :: (be32bytes c.length ++ (c ++ key))).drop 5
      = (be32bytes c.length ++ (c ++ key)).drop 4 from rfl]
    exact List.drop_left' (be32bytes_length _)
  have hdropkey : (1 :: (be32bytes c.length ++ (c ++ key))).drop (c.length + 5) = key := by
    rw [show c.length + 5 = (4 + c.length) + 1 by omega, List.drop_succ_cons,
      ← List.append_assoc]
    exact List.drop_left' (by simp [be32bytes_length])
  have htakec : (c ++ key).take c.length = c := List.take_left c key
  unfold decrypt_img_data
  rw [hguess]
  simp only [Bool.false_eq_true, if_false, ne_eq, not_true_eq_false, ite_false, if_neg]
  rw [if_neg (by rw [hlistlen]; omega)]
  rw [hread]
  rw [if_neg (by rw [hlistlen]; omega)]
  rw [hdropkey, hdrop5, htakec]
  rw [hb64]
  simp only [withToken_some]
  rw [if_neg (by omega)]

/-- C3: decryption round-trip — for every payload produced by the
documented obfuscation scheme (`encrypt_img_data`, modelled from the spec)
with a 32-byte trailing key and the IV taken from bytes 60..76 of the
base64-decoded URL token, `decrypt_img_data` recovers the original
plaintext exactly, both when the content region is shorter than the
20496-byte threshold (whole-region decrypt) and when it is at least that
long (only the leading 20496 bytes are decrypted and the remaining
ciphertext bytes are appended unmodified, byte for byte). -/
theorem c3_decrypt_encrypt_roundtrip
    (guessOk : List Nat → Bool) (decB encB : List Nat → List Nat)
    (hinv : ∀ b, b.length = 16 → decB (encB b) = b)
    (hlen : ∀ b, b.length = 16 → (encB b).length = 16)
    (p key : List Nat) (hkey : key.length = 32)
    (hp : p.length + 16 < 4294967296)
    (cpx : String) (tk : List Nat)
    (hb64 : base64Decode (percentDecode cpx.toList) = some tk)
    (htk : 76 ≤ tk.length)
    (e : List Nat)
    (henc : e = encrypt_img_data encB p key ((tk.drop 60).take 16))
    (hguess : guessOk e = false) :
    decrypt_img_data guessOk decB e cpx = DResult.ok p := by
  subst henc
  have hiv : ((tk.drop 60).take 16).length = 16 := by
    simp only [List.length_take, List.length_drop]
    omega
  by_cases hsmall : p.length < 20480
  · have hcontlen : (cbcEncBlocks encB ((tk.drop 60).take 16)
        (chunks16 (pkcs7pad p))).length = (pkcs7pad p).length :=
      cbcEnc_length encB hlen _ _ (pkcs7pad_mod p) hiv
    have hmod : (cbcEncBlocks encB ((tk.drop 60).take 16)
        (chunks16 (pkcs7pad p))).length % 16 = 0 := by
      rw [hcontlen]; exact pkcs7pad_mod p
    have hE : encrypt_img_data encB p key ((tk.drop 60).take 16)
        = 1 :: (be32bytes (cbcEncBlocks encB ((tk.drop 60).take 16)
            (chunks16 (pkcs7pad p))).length
          ++ (cbcEncBlocks encB ((tk.drop 60).take 16) (chunks16 (pkcs7pad p)) ++ key)) := by
      unfold encrypt_img_data
      rw [if_pos hsmall]
    rw [hE] at hguess ⊢
    rw [decrypt_img_data_packet guessOk decB _ key cpx tk hb64 htk
      (by rw [hcontlen, pkcs7pad_length]; omega) hguess]
    have hdec : aes_cbc_decrypt decB
        (cbcEncBlocks encB ((tk.drop 60).take 16) (chunks16 (pkcs7pad p))) key
        ((tk.drop 60).take 16) = some p := by
      unfold aes_cbc_decrypt
      rw [if_neg (by simp [hkey]), if_neg (by simp [hiv]), if_neg (by simp [hmod])]
      rw [cbc_roundtrip decB encB hinv hlen _ _ (pkcs7pad_mod p) hiv]
      unfold pkcs7pad
      exact pkcs7_unpad_append p _ (by omega)
    rw [if_pos (by rw [hcontlen, pkcs7pad_length]; omega), hdec]
    rfl
  · have h20480 : (p.take 20480).length = 20480 := by
      simp only [List.length_take]
      omega
    have hpadlen : (pkcs7pad (p.take 20480)).length = 20496 := by
      rw [pkcs7pad_length, h20480]
    have hcbclen : (cbcEncBlocks encB ((tk.drop 60).take 16)
        (chunks16 (pkcs7pad (p.take 20480)))).length = 20496 := by
      rw [cbcEnc_length encB hlen _ _ (pkcs7pad_mod _) hiv, hpadlen]
    have hE : encrypt_img_data encB p key ((tk.drop 60).take 16)
        = 1 :: (be32bytes (cbcEncBlocks encB ((tk.drop 60).take 16)
            (chunks16 (pkcs7pad (p.take 20480))) ++ p.drop 20480).length
          ++ ((cbcEncBlocks encB ((tk.drop 60).take 16) (chunks16 (pkcs7pad (p.take 20480)))
            ++ p.drop 20480) ++ key)) := by
      unfold encrypt_img_data
      rw [if_neg hsmall]
    have hclen : (cbcEncBlocks encB ((tk.drop 60).take 16) (chunks16 (pkcs7pad (p.take 20480)))
        ++ p.drop 20480).length = p.length + 16 := by
      simp only [List.length_append, hcbclen, List.length_drop]
      omega
    rw [hE] at hguess ⊢
    rw [decrypt_img_data_packet guessOk decB _ key cpx tk hb64 htk (by rw [hclen]; omega) hguess]
    rw [if_neg (by rw [hclen]; omega)]
    rw [List.take_left' hcbclen, List.drop_left' hcbclen]
    have hdec : aes_cbc_decrypt decB
        (cbcEncBlocks encB ((tk.drop 60).take 16) (chunks16 (pkcs7pad (p.take 20480)))) key
        ((tk.drop 60).take 16) = some (p.take 20480) := by
      unfold aes_cbc_decrypt
      rw [if_neg (by simp [hkey]), if_neg (by simp [hiv]),
        if_neg (by rw [hcbclen]; omega)]
      rw [cbc_roundtrip decB encB hinv hlen _ _ (pkcs7pad_mod _) hiv]
      unfold pkcs7pad
      exact pkcs7_unpad_append _ _ (by omega)
    rw [hdec]
    show DResult.ok (p.take 20480 ++ p.drop 20480) = DResult.ok p
    rw [List.take_append_drop]

/-- A 104-character all-letter-A token: percent-decoding is the identity on
it and its base64 decoding is 78 zero bytes, enough for the 60..76 IV
slice. -/
def tokenA : String :=
  "AAAAAAAAAAAAAAAAAAAAAAAAAAAAAAAAAAAAAAAAAAAAAAAAAAAAAAAAAAAAAAAAAAAAAAAAAAAAAAAAAAAAAAAAAAAAAAAAAAAAAAAA"

theorem c3_decrypt_encrypt_roundtrip_witness :
    decrypt_img_data (fun _ => false) (fun b => b)
      (encrypt_img_data (fun b => b) [7, 7, 7] (List.replicate 32 5)
        (((List.replicate 78 0).drop 60).take 16)) tokenA = DResult.ok [7, 7, 7] :=
  c3_decrypt_encrypt_roundtrip (fun _ => false) (fun b => b) (fun b => b)
    (fun _ _ => rfl) (fun _ hb => hb) [7, 7, 7] (List.replicate 32 5) (by decide)
    (by decide) tokenA (List.replicate 78 0) (by decide) (by decide) _ rfl rfl

/-- Whether a `DResult` is a Rust `Err` return (a panic is not an `Err`). -/
def isErr : DResult → Bool
  | .err _ => true
  | _ => false

/-- C4 (amended): `decrypt_img_data` returns an error precisely when the
bytes do not parse as a recognized image format, the buffer is nonempty,
and either the leading flag byte is not 1, or the buffer has at least 5
bytes, the declared length + 5 fits in the buffer, and the obfuscation
token fails to base64-decode.  In particular recognized images are returned
unchanged, and a declared length + 5 exceeding the buffer length (with flag
byte 1) returns the original bytes unchanged — even when the token is
invalid base64, which is the corner the original claim missed. -/
theorem c4_error_characterization (guessOk : List Nat → Bool) (decB : List Nat → List Nat)
    (img : List Nat) (cpx : String) :
    (isErr (decrypt_img_data guessOk decB img cpx) = true ↔
      (guessOk img = false ∧
        ((∃ flag rest, img = flag :: rest ∧ flag ≠ 1) ∨
          (img.head? = some 1 ∧ 5 ≤ img.length ∧ readBe32 (img.drop 1) + 5 ≤ img.length ∧
            base64Decode (percentDecode cpx.toList) = none))))
    ∧ (guessOk img = true → decrypt_img_data guessOk decB img cpx = DResult.ok img)
    ∧ ((guessOk img = false ∧ img.head? = some 1 ∧ 5 ≤ img.length ∧
          img.length < readBe32 (img.drop 1) + 5) →
        decrypt_img_data guessOk decB img cpx = DResult.ok img) := by
  refine ⟨?_, ?_, ?_⟩
  · by_cases hg : guessOk img
    · simp [decrypt_img_data, hg, isErr]
    · rw [Bool.not_eq_true] at hg
      cases img with
      | nil => simp [decrypt_img_data, hg, isErr]
      | cons flag rest =>
        by_cases hflag : flag = 1
        · subst hflag
          by_cases h5 : (1 :: rest).length < 5
          · simp only [decrypt_img_data, hg, Bool.false_eq_true, if_false, ne_eq,
              not_true_eq_false, ite_false, if_pos h5]
            refine iff_of_false (by simp [isErr]) ?_
            rintro ⟨-, hd⟩
            rcases hd with ⟨f, r, hfr, hf1⟩ | ⟨-, h2, -, -⟩
            · rw [List.cons.injEq] at hfr
              exact hf1 hfr.1.symm
            · omega
          · by_cases hover : readBe32 ((1 :: rest).drop 1) + 5 > (1 :: rest).length
            · simp only [decrypt_img_data, hg, Bool.false_eq_true, if_false, ne_eq,
                not_true_eq_false, ite_false, if_neg h5, if_pos hover]
              refine iff_of_false (by simp [isErr]) ?_
              rintro ⟨-, hd⟩
              rcases hd with ⟨f, r, hfr, hf1⟩ | ⟨-, -, h3, -⟩
              · rw [List.cons.injEq] at hfr
                exact hf1 hfr.1.symm
              · omega
            · simp only [decrypt_img_data, hg, Bool.false_eq_true, if_false, ne_eq,
                not_true_eq_false, ite_false, if_neg h5, if_neg hover]
              cases hb : base64Decode (percentDecode cpx.toList) with
              | none =>
                rw [withToken_none]
                exact iff_of_true rfl
                  ⟨trivial, Or.inr ⟨rfl, by omega, by omega, rfl⟩⟩
              | some tk =>
                simp only [withToken_some]
                refine iff_of_false ?_ ?_
                · by_cases h76 : tk.length < 76
                  · rw [if_pos h76]
                    simp [isErr]
                  · rw [if_neg h76]
                    by_cases hct : (List.take (readBe32 (List.drop 1 (1 :: rest)))
                        (List.drop 5 (1 :: rest))).length < 20496
                    · rw [if_pos hct]
                      cases aes_cbc_decrypt decB _ _ _ <;> simp [isErr, crashOr]
                    · rw [if_neg hct]
                      cases aes_cbc_decrypt decB _ _ _ <;> simp [isErr, crashOr]
                · rintro ⟨-, hd⟩
                  rcases hd with ⟨f, r, hfr, hf1⟩ | ⟨-, -, -, hnone⟩
                  · rw [List.cons.injEq] at hfr
                    exact hf1 hfr.1.symm
                  · exact Option.some_ne_none tk hnone
        · simp only [decrypt_img_data, hg, Bool.false_eq_true, if_false, if_pos hflag]
          exact iff_of_true rfl ⟨trivial, Or.inl ⟨flag, rest, rfl, hflag⟩⟩
  · intro h
    unfold decrypt_img_data
    rw [h]
    rfl
  · rintro ⟨hg, hhead, h5, hover⟩
    obtain ⟨rest, hrest⟩ : ∃ rest, img = 1 :: rest := by
      cases img with
      | nil => simp at hhead
      | cons a t =>
        simp only [List.head?_cons, Option.some.injEq] at hhead
        exact ⟨t, by rw [hhead]⟩
    subst hrest
    simp only [decrypt_img_data, hg, Bool.false_eq_true, if_false, ne_eq, not_true_eq_false,
      ite_false, if_neg (by omega : ¬ (1 :: rest).length < 5),
      if_pos (by omega : readBe32 ((1 :: rest).drop 1) + 5 > (1 :: rest).length)]

/-- C4 (counterexample): at the input `[1, 0, 0, 0, 1]` — flag byte 1,
declared length 1 with `1 + 5` exceeding the 5-byte buffer — paired with
the token `"%"` that fails to base64-decode, the code returns the bytes
unchanged (no error), while the claim's "error precisely when not an image
and (flag ≠ 1 or token fails base64)" demands an error. -/
theorem c4_counterexample_oversize_length_bad_token :
    ¬ (isErr (decrypt_img_data (fun _ => false) (fun b => b) [1, 0, 0, 0, 1] "%") = true ↔
      ((fun (_ : List Nat) => false) [1, 0, 0, 0, 1] = false ∧
        (([1, 0, 0, 0, 1] : List Nat).head? ≠ some 1 ∨
          base64Decode (percentDecode "%".toList) = none))) := by
  decide

theorem c4_error_characterization_witness :
    decrypt_img_data (fun _ => true) (fun b => b) [2] "" = DResult.ok [2]
    ∧ isErr (decrypt_img_data (fun _ => false) (fun b => b) [2] "") = true
    ∧ decrypt_img_data (fun _ => false) (fun b => b) [1, 0, 0, 0, 9, 0] ""
        = DResult.ok [1, 0, 0, 0, 9, 0] :=
  ⟨(c4_error_characterization (fun _ => true) (fun b => b) [2] "").2.1 rfl,
   (c4_error_characterization (fun _ => false) (fun b => b) [2] "").1.mpr
     ⟨rfl, Or.inl ⟨2, [], rfl, by decide⟩⟩,
   (c4_error_characterization (fun _ => false) (fun b => b) [1, 0, 0, 0, 9, 0] "").2.2
     ⟨rfl, by decide, by decide, by decide⟩⟩

/-- C10: the decryption path is not total — `decrypt_img_data` panics
rather than returning an error on: an empty buffer (indexing byte 0); a
token whose base64 decoding is shorter than 76 bytes (slicing 60..76); an
empty content region (unwrapping the last decrypted byte of an empty
decryption); and a decrypted final block whose last byte exceeds the
decrypted length, where the padding-length subtraction underflows. -/
theorem c10_decrypt_not_total (guessOk : List Nat → Bool) (decB : List Nat → List Nat)
    (cpx : String) :
    (guessOk [] = false → decrypt_img_data guessOk decB [] cpx = DResult.crash)
    ∧ (guessOk [1, 0, 0, 0, 0] = false →
        decrypt_img_data guessOk decB [1, 0, 0, 0, 0] "AAAA" = DResult.crash)
    ∧ (guessOk ([1, 0, 0, 0, 0] ++ List.replicate 32 0) = false →
        decrypt_img_data guessOk decB ([1, 0, 0, 0, 0] ++ List.replicate 32 0) tokenA
          = DResult.crash)
    ∧ (∀ c key iv, c.length = 16 → key.length = 32 → iv.length = 16 →
        (decB c).length = 16 → 16 < (zipXor (decB c) iv).getLastD 0 →
        aes_cbc_decrypt decB c key iv = none) := by
  refine ⟨?_, ?_, ?_, ?_⟩
  · intro h
    unfold decrypt_img_data
    rw [h]
    rfl
  · intro h
    unfold decrypt_img_data
    rw [h]
    rfl
  · intro h
    unfold decrypt_img_data
    rw [h]
    rfl
  · intro c key iv hc hkey hiv hdlen hlast
    unfold aes_cbc_decrypt
    rw [if_neg (by simp [hkey]), if_neg (by simp [hiv]), if_neg (by simp [hc])]
    have hchunks : chunks16 c = [c] := by
      conv_lhs => rw [show c = c ++ ([] : List Nat) by simp]
      rw [chunks16_cons16 _ _ hc]
      rfl
    rw [hchunks]
    show pkcs7_unpad (zipXor (decB c) iv ++ []) = none
    rw [List.append_nil]
    have hzlen : (zipXor (decB c) iv).length = 16 := by
      rw [zipXor_length, hdlen, hiv]; exact Nat.min_self 16
    have hne : zipXor (decB c) iv ≠ [] := by
      intro hz
      rw [hz] at hzlen
      simp at hzlen
    obtain ⟨k, hk⟩ : ∃ k, (zipXor (decB c) iv).getLast? = some k := by
      cases hq : (zipXor (decB c) iv).getLast? with
      | none => exact absurd (List.getLast?_eq_none_iff.mp hq) hne
      | some k => exact ⟨k, rfl⟩
    have hkval : 16 < k := by
      rw [List.getLastD_eq_getLast?, hk] at hlast
      simpa using hlast
    unfold pkcs7_unpad
    rw [hk]
    show (if (zipXor (decB c) iv).length < k then none
      else some ((zipXor (decB c) iv).take ((zipXor (decB c) iv).length - k))) = none
    rw [if_pos (by omega)]

theorem c10_decrypt_not_total_witness :
    decrypt_img_data (fun _ => false) (fun b => b) [] "" = DResult.crash
    ∧ decrypt_img_data (fun _ => false) (fun b => b) [1, 0, 0, 0, 0] "AAAA" = DResult.crash
    ∧ decrypt_img_data (fun _ => false) (fun b => b) ([1, 0, 0, 0, 0] ++ List.replicate 32 0)
        tokenA = DResult.crash
    ∧ aes_cbc_decrypt (fun _ => List.replicate 15 0 ++ [255]) (List.replicate 16 0)
        (List.replicate 32 0) (List.replicate 16 0) = none := by
  obtain ⟨h1, h2, h3, _⟩ := c10_decrypt_not_total (fun _ => false) (fun b => b) ""
  refine ⟨h1 rfl, h2 rfl, h3 rfl, ?_⟩
  exact (c10_decrypt_not_total (fun _ => false) (fun _ => List.replicate 15 0 ++ [255]) "").2.2.2
    (List.replicate 16 0) (List.replicate 32 0) (List.replicate 16 0)
    (by decide) (by decide) (by decide) (by decide) (by decide)

/-- One atomic action of the per-item pipelines on the two shared progress
counters `downloaded_image_count` / `total_image_count`: the
`fetch_add(total)` before the permit wait, the `fetch_add(1)` per joined
image task, and the end-of-item check that stores zero into both counters
when it observes them equal. -/
inductive CAct where
  | addTotal (n : Nat)
  | inc
  | check
deriving DecidableEq

/-- The two shared counters. -/
structure CState where
  downloaded : Nat
  total : Nat
deriving DecidableEq

/-- Effect of one action (`Ordering::Relaxed` atomics, modelled
sequentially consistent; the source's end-of-item check performs two loads
and two stores, collapsed here into one atomic step — making the check
coarser only strengthens the counterexample below, which is also a valid
interleaving of the finer-grained version). -/
def cstep (s : CState) : CAct → CState
  | .addTotal n => ⟨s.downloaded, s.total + n⟩
  | .inc => ⟨s.downloaded + 1, s.total⟩
  | .check => if s.downloaded = s.total then ⟨0, 0⟩ else s

/-- Run a list of counter actions from a state. -/
def crun (s : CState) (tr : List CAct) : CState := tr.foldl cstep s

/-- Counter actions of one item with `n` images, in program order
(`process_episode` / `process_album_plus`): add `n` to the total, one
increment of `downloaded` per joined image task, then the end-of-item
reset check. -/
def itemActs (n : Nat) : List CAct :=
  .addTotal n :: (List.replicate n .inc ++ [.check])

/-- Whether an action modifies a counter (the check only ever resets). -/
def modifiesCounter : CAct → Bool
  | .addTotal _ => true
  | .inc => true
  | .check => false

/-- State after the first `k` actions of a trace, starting from the
freshly constructed manager (both counters zero). -/
def stateAt (tr : List CAct) (k : Nat) : CState := crun ⟨0, 0⟩ (tr.take k)

/-- The check at position `k` observes equal counters and hence stores
zero into both. -/
def effReset (tr : List CAct) (k : Nat) : Prop :=
  tr[k]? = some .check ∧ (stateAt tr k).downloaded = (stateAt tr k).total

/-- The reset discipline of the claim: whenever an image-completion
increment makes the two counters equal, a reset is executed before the
next action that modifies either counter. -/
def resetDiscipline (tr : List CAct) : Prop :=
  ∀ i j, tr[i]? = some .inc →
    (stateAt tr (i + 1)).downloaded = (stateAt tr (i + 1)).total →
    i < j → (∃ a, tr[j]? = some a ∧ modifiesCounter a = true) →
    ∃ k, i < k ∧ k < j ∧ effReset tr k

/-- Interleaved execution of several items' counter actions: `sched`
names, step by step, the item whose next pending action runs; exhausted or
invalid indices are skipped. -/
def mergeTrace (items : List (List CAct)) : List Nat → List CAct
  | [] => []
  | q :: sched =>
    match items[q]? with
    | some (a :: rest) => a :: mergeTrace (items.set q rest) sched
    | _ => mergeTrace items sched

/-- The C2 claim as stated, over every workload (list of per-item image
counts) and every interleaving of the items' counter actions. -/
def c2ConcurrentClaim : Prop :=
  ∀ (ns sched : List Nat), resetDiscipline (mergeTrace (ns.map itemActs) sched)

/-- C2 (counterexample): two concurrently in-flight one-image items,
interleaved so that item B executes its `total_count += 1` right after
item A's increment made the counters equal (1, 1) and before item A's
end-of-item check runs: the counters become equal after an increment, yet
the next counter modification is another increment, not a reset. -/
theorem c2_counterexample_interleaving : ¬ c2ConcurrentClaim := by
  intro h
  obtain ⟨k, hik, hkj, -⟩ :=
    h [1, 1] [0, 0, 1, 0, 1, 1] 1 2 (by decide) (by decide) (by decide)
      ⟨.addTotal 1, by decide, rfl⟩
  omega

/-- Counter actions of a sequential (non-interleaved) run of the given
items. -/
def seqTrace : List Nat → List CAct
  | [] => []
  | n :: ns => itemActs n ++ seqTrace ns

theorem crun_append (s : CState) (a b : List CAct) :
    crun s (a ++ b) = crun (crun s a) b := by
  simp [crun]

theorem crun_replicate_inc :
    ∀ (n : Nat) (s : CState), crun s (List.replicate n .inc) = ⟨s.downloaded + n, s.total⟩
  | 0, s => by simp [crun]
  | n + 1, s => by
    rw [List.replicate_succ]
    show crun (cstep s .inc) (List.replicate n .inc) = _
    rw [crun_replicate_inc n]
    show (⟨s.downloaded + 1 + n, s.total⟩ : CState) = ⟨s.downloaded + (n + 1), s.total⟩
    congr 1
    omega

theorem crun_itemActs (n : Nat) : crun ⟨0, 0⟩ (itemActs n) = ⟨0, 0⟩ := by
  show crun (cstep ⟨0, 0⟩ (.addTotal n)) (List.replicate n .inc ++ [CAct.check]) = _
  rw [crun_append, crun_replicate_inc]
  simp [crun, cstep]

theorem itemActs_length (n : Nat) : (itemActs n).length = n + 2 := by
  simp [itemActs]

theorem itemActs_get (n i : Nat) :
    (itemActs n)[i]? =
      if i = 0 then some (.addTotal n)
      else if i ≤ n then some .inc
      else if i = n + 1 then some .check
      else none := by
  cases i with
  | zero => simp [itemActs]
  | succ m =>
    simp only [itemActs, List.getElem?_cons_succ]
    by_cases hm : m < n
    · rw [List.getElem?_append_left (by simp only [List.length_replicate]; omega),
        List.getElem?_replicate, if_pos hm, if_neg (by omega), if_pos (by omega)]
    · rw [List.getElem?_append_right (by simp only [List.length_replicate]; omega)]
      simp only [List.length_replicate]
      by_cases hm1 : m = n
      · subst hm1
        rw [Nat.sub_self]
        rw [if_neg (by omega), if_neg (by omega), if_pos rfl]
        rfl
      · rw [List.getElem?_eq_none (by simp only [List.length_cons, List.length_nil]; omega)]
        rw [if_neg (by omega), if_neg (by omega), if_neg (by omega)]

theorem itemActs_take_state (n k : Nat) (h1 : 1 ≤ k) (hk : k ≤ n + 1) :
    crun ⟨0, 0⟩ ((itemActs n).take k) = ⟨k - 1, n⟩ := by
  have htake : (itemActs n).take k = .addTotal n :: List.replicate (k - 1) .inc := by
    cases k with
    | zero => omega
    | succ m =>
      simp only [itemActs, List.take_succ_cons, List.cons.injEq, true_and]
      rw [List.take_append_of_le_length (by simp only [List.length_replicate]; omega),
        List.take_replicate]
      congr 1
      omega
  rw [htake]
  show crun (cstep ⟨0, 0⟩ (.addTotal n)) (List.replicate (k - 1) .inc) = _
  rw [crun_replicate_inc]
  simp [cstep]

theorem stateAt_append_left (A R : List CAct) (k : Nat) (hk : k ≤ A.length) :
    stateAt (A ++ R) k = stateAt A k := by
  unfold stateAt
  rw [List.take_append_of_le_length hk]

theorem stateAt_append_right (A R : List CAct) (hA0 : crun ⟨0, 0⟩ A = ⟨0, 0⟩) (k : Nat) :
    stateAt (A ++ R) (A.length + k) = stateAt R k := by
  unfold stateAt
  rw [List.take_append, crun_append, hA0]

/-- C2 (amended): in every sequential (non-interleaved) execution of any
workload, after an increment that makes `downloaded_count` equal to
`total_count`, the end-of-item check resets both counters to zero before
any further increment of either counter.  (Concurrent interleavings
violate this — see the counterexample.) -/
theorem c2_sequential_reset_discipline (ns : List Nat) : resetDiscipline (seqTrace ns) := by
  induction ns with
  | nil =>
    intro i j hinc heq hij hmod
    rw [show seqTrace [] = [] from rfl, List.getElem?_eq_none (by simp)] at hinc
    exact absurd hinc (by simp)
  | cons n ns ih =>
    intro i j hinc heq hij hmod
    have hST : seqTrace (n :: ns) = itemActs n ++ seqTrace ns := rfl
    rw [hST] at hinc heq hmod ⊢
    have hAlen : (itemActs n).length = n + 2 := itemActs_length n
    have hA0 : crun ⟨0, 0⟩ (itemActs n) = ⟨0, 0⟩ := crun_itemActs n
    by_cases hi : i < (itemActs n).length
    · have hgetA : (itemActs n)[i]? = some .inc := by
        rwa [List.getElem?_append_left hi] at hinc
      rw [itemActs_get] at hgetA
      have hib : 1 ≤ i ∧ i ≤ n := by
        by_cases g1 : i = 0
        · rw [if_pos g1] at hgetA
          simp at hgetA
        · rw [if_neg g1] at hgetA
          by_cases g2 : i ≤ n
          · exact ⟨by omega, g2⟩
          · rw [if_neg g2] at hgetA
            by_cases g3 : i = n + 1
            · rw [if_pos g3] at hgetA
              simp at hgetA
            · rw [if_neg g3] at hgetA
              simp at hgetA
      by_cases hj : j < (itemActs n).length
      · obtain ⟨a, hja, hmoda⟩ := hmod
        have hgetAj : (itemActs n)[j]? = some a := by
          rwa [List.getElem?_append_left hj] at hja
        rw [itemActs_get] at hgetAj
        have hjn : j ≤ n := by
          by_cases g1 : j = 0
          · omega
          · rw [if_neg g1] at hgetAj
            by_cases g2 : j ≤ n
            · exact g2
            · rw [if_neg g2] at hgetAj
              by_cases g3 : j = n + 1
              · rw [if_pos g3] at hgetAj
                injection hgetAj with hh
                rw [← hh] at hmoda
                simp [modifiesCounter] at hmoda
              · rw [if_neg g3] at hgetAj
                simp at hgetAj
        have hstate : stateAt (itemActs n ++ seqTrace ns) (i + 1) = ⟨i, n⟩ := by
          rw [stateAt_append_left _ _ _ (by omega)]
          show crun ⟨0, 0⟩ ((itemActs n).take (i + 1)) = _
          rw [itemActs_take_state n (i + 1) (by omega) (by omega)]
          congr 1
        rw [hstate] at heq
        simp only at heq
        omega
      · refine ⟨n + 1, by omega, by omega, ?_, ?_⟩
        · rw [List.getElem?_append_left (by omega), itemActs_get,
            if_neg (by omega), if_neg (by omega), if_pos rfl]
        · have hstate : stateAt (itemActs n ++ seqTrace ns) (n + 1) = ⟨n, n⟩ := by
            rw [stateAt_append_left _ _ _ (by omega)]
            show crun ⟨0, 0⟩ ((itemActs n).take (n + 1)) = _
            rw [itemActs_take_state n (n + 1) (by omega) (by omega)]
            congr 1
          rw [hstate]
    · have hiA : (itemActs n).length ≤ i := by omega
      have hinc' : (seqTrace ns)[i - (itemActs n).length]? = some .inc := by
        rwa [List.getElem?_append_right hiA] at hinc
      have heq' : (stateAt (seqTrace ns) ((i - (itemActs n).length) + 1)).downloaded
          = (stateAt (seqTrace ns) ((i - (itemActs n).length) + 1)).total := by
        rw [show i + 1 = (itemActs n).length + ((i - (itemActs n).length) + 1) by omega] at heq
        rwa [stateAt_append_right _ _ hA0] at heq
      obtain ⟨a, hja, hmoda⟩ := hmod
      have hja' : (seqTrace ns)[j - (itemActs n).length]? = some a := by
        rwa [List.getElem?_append_right (by omega)] at hja
      obtain ⟨k, hk1, hk2, hkg, hks⟩ :=
        ih (i - (itemActs n).length) (j - (itemActs n).length) hinc' heq' (by omega)
          ⟨a, hja', hmoda⟩
      refine ⟨(itemActs n).length + k, by omega, by omega, ?_, ?_⟩
      · rw [List.getElem?_append_right (by omega)]
        rwa [show (itemActs n).length + k - (itemActs n).length = k by omega]
      · rw [stateAt_append_right _ _ hA0]
        exact hks

theorem c2_sequential_reset_discipline_witness :
    ∃ k, 1 < k ∧ k < 3 ∧ effReset (seqTrace [1, 1]) k :=
  c2_sequential_reset_discipline [1, 1] 1 3 (by decide) (by decide) (by decide)
    ⟨.addTotal 1, by decide, rfl⟩

instance {ε α : Type} [DecidableEq ε] [DecidableEq α] : DecidableEq (Except ε α) := fun a b =>
  match a, b with
  | .ok x, .ok y => if h : x = y then isTrue (by rw [h]) else isFalse (by simp [h])
  | .error x, .error y => if h : x = y then isTrue (by rw [h]) else isFalse (by simp [h])
  | .ok _, .error _ => isFalse (by simp)
  | .error _, .ok _ => isFalse (by simp)

/-- A filesystem path, as its components. -/
abbrev Path := List String

/-- Events emitted to the frontend (the `emit_*_event` helpers).  The
percentage field of the overall-progress event (an f64 derived from the
two carried counts) is omitted. -/
inductive Event where
  | pending (id : Int) (title : String)
  | start (id : Int) (title : String) (total : Nat)
  | imageSuccess (id : Int) (path : Path) (current : Nat)
  | imageError (id : Int) (url : String) (errMsg : String)
  | progress (downloaded total : Nat)
  | ended (id : Int) (errMsg : Option String)
deriving DecidableEq

/-- Filesystem and archive side effects of the pipelines, in program
order.  `zipAddEntry` combines `start_file` and the `io::copy` of the
entry bytes. -/
inductive FsAction where
  | createDirAll (p : Path)
  | writeFile (p : Path) (content : String)
  | removeDirAll (p : Path)
  | rename (src dst : Path)
  | createFile (p : Path)
  | zipAddEntry (name : String) (content : String)
  | zipFinish
  | sleep (secs : Nat)
deriving DecidableEq

/-- Modelled from the spec (glossary; the repository's `types.rs` is not
among the provided sources): the archive format — plain directory
("Image"), zip, or metadata-bearing zip ("Cbz") — with the file extension
`save_archive` uses for the zip-like formats. -/
inductive ArchiveFormat where
  | image
  | zip
  | cbz
deriving DecidableEq

/-- Modelled from the spec: extension of the zip-like archive formats. -/
def ArchiveFormat.extension : ArchiveFormat → String
  | .image => ""
  | .zip => "zip"
  | .cbz => "cbz"

/-- The live configuration fields read by the download manager. -/
structure Config where
  downloadDir : Path
  archiveFormat : ArchiveFormat
  episodeDownloadInterval : Nat
deriving DecidableEq

/-- The fields of `EpisodeInfo` used by the pipeline; the yaserde
serialization of its `ComicInfo` record is abstracted by its result. -/
structure EpisodeInfo where
  episodeId : Int
  episodeTitle : String
  comicTitle : String
  comicInfoXml : Except String String
deriving DecidableEq

/-- The fields of `AlbumPlusItem` used by the pipeline. -/
structure AlbumPlusItem where
  id : Int
  title : String
  comicTitle : String
  pic : List String
deriving DecidableEq

/-- Temp workspace for an episode: `download_dir/comic_title/.下载中-title`. -/
def get_ep_temp_download_dir (cfg : Config) (ep : EpisodeInfo) : Path :=
  cfg.downloadDir ++ [ep.comicTitle, ".下载中-" ++ ep.episodeTitle]

/-- Temp workspace for an extra item, nested under the fixed `特典`
subfolder. -/
def get_album_plus_temp_download_dir (cfg : Config) (item : AlbumPlusItem) : Path :=
  cfg.downloadDir ++ [item.comicTitle, "特典", ".下载中-" ++ item.title]

/-- `format!("{:03}", n)`: decimal, zero-padded to at least three digits. -/
def pad3 (n : Nat) : String :=
  let s := Nat.repr n
  if s.length < 3 then String.mk (List.replicate (3 - s.length) '0') ++ s else s

/-- Destination filename of the image spawned at 0-based index `i`:
`format!("{:03}.jpg", i + 1)`. -/
def savePathName (i : Nat) : String := pad3 (i + 1) ++ ".jpg"

/-- Result of `save_archive`: its filesystem actions in program order, any
event it emits itself, the entries of a produced zip archive, and its
`anyhow::Result`. -/
structure ArchiveOut where
  actions : List FsAction
  events : List Event
  zipEntries : List (String × String)
  result : Except String Unit
deriving DecidableEq

/-- The `ArchiveFormat::Cbz | ArchiveFormat::Zip` arm of `save_archive`:
serialize the metadata (failure is an archiving error), write
`ComicInfo.xml` into the temp workspace, create the archive file named
after the episode with the format's extension, stream every regular file
of the workspace into an entry (the listing is modelled in creation
order, so the just-written `ComicInfo.xml` comes last), close the
archive, then delete the workspace recursively. -/
def save_archive_zip (ep : EpisodeInfo) (temp : Path) (tempFiles : List (String × String))
    (ext : String) : ArchiveOut :=
  match ep.comicInfoXml with
  | .error e =>
    { actions := [], events := [], zipEntries := [],
      result := .error ("序列化 ComicInfo.xml 失败: " ++ e) }
  | .ok xml =>
    let zipPath := temp.dropLast ++ [ep.episodeTitle ++ "." ++ ext]
    let listing := tempFiles ++ [("ComicInfo.xml", xml)]
    { actions := [FsAction.writeFile (temp ++ ["ComicInfo.xml"]) xml,
        FsAction.createFile zipPath]
        ++ listing.map (fun f => FsAction.zipAddEntry f.1 f.2)
        ++ [FsAction.zipFinish, FsAction.removeDirAll temp],
      events := [], zipEntries := listing, result := .ok () }

/-- `save_archive(ep_info, temp_download_dir)`.  The filesystem is
modelled by the listing `tempFiles` of regular files in the temp
workspace (name and bytes) plus `finalDirExists` for the existence check
of the plain-directory branch; filesystem operations are modelled as
succeeding and recorded in program order.  The `let Some(parent) = ..
else` branch (unreachable for the joined paths the callers build) emits
an end event by itself and returns Ok. -/
def save_archive (cfg : Config) (ep : EpisodeInfo) (temp : Path)
    (tempFiles : List (String × String)) (finalDirExists : Bool) : ArchiveOut :=
  match temp with
  | [] =>
    { actions := [], events := [Event.ended ep.episodeId (some "无法获取父目录")],
      zipEntries := [], result := .ok () }
  | _ :: _ =>
    let download_dir := temp.dropLast ++ [ep.episodeTitle]
    match cfg.archiveFormat with
    | .image =>
      if finalDirExists then
        { actions := [FsAction.removeDirAll download_dir, FsAction.rename temp download_dir],
          events := [], zipEntries := [], result := .ok () }
      else
        { actions := [FsAction.rename temp download_dir],
          events := [], zipEntries := [], result := .ok () }
    | .zip => save_archive_zip ep temp tempFiles (ArchiveFormat.zip.extension)
    | .cbz => save_archive_zip ep temp tempFiles (ArchiveFormat.cbz.extension)

/-- Result of one item-processing task: emitted events, filesystem
actions, and the task's own `anyhow::Result` return value, which nothing
in the program consumes. -/
structure RunOut where
  events : List Event
  actions : List FsAction
  result : Except String Unit
deriving DecidableEq

/-- Events of the join loop, processing completed image tasks in spawn
order (an isolated run: the shared counters start at zero; cross-item
counter interleaving, which only changes the numbers carried by the
progress events, is modelled separately by `CAct`).  `succ` counts prior
successes (the per-item `current`), `done` counts prior joined tasks. -/
def imageEvents (id : Int) (temp : Path) (total : Nat) :
    List (Nat × String × Bool) → Nat → Nat → List Event
  | [], _, _ => []
  | (i, url, ok) :: rest, succ, done =>
    (if ok then [Event.imageSuccess id (temp ++ [savePathName i]) (succ + 1)]
     else [Event.imageError id url ("下载图片 " ++ url ++ " 失败")])
    ++ Event.progress (done + 1) total
      :: imageEvents id temp total rest (if ok then succ + 1 else succ) (done + 1)

/-- File writes performed by the successful image tasks (the bytes stand
for the url they were fetched from; actual bytes are network input outside
the model). -/
def imageWrites (temp : Path) (tasks : List (Nat × String × Bool)) : List FsAction :=
  tasks.filterMap fun t =>
    if t.2.2 then some (FsAction.writeFile (temp ++ [savePathName t.1]) t.2.1) else none

/-- Files present in the temp workspace after the join loop. -/
def imageFiles (tasks : List (Nat × String × Bool)) : List (String × String) :=
  tasks.filterMap fun t => if t.2.2 then some (savePathName t.1, t.2.1) else none

/-- Number of successful image tasks (final value of the per-item
`current`). -/
def succCount (oks : List Bool) : Nat := (oks.filter fun b => b).length

/-- Inputs of one `process_episode` run: the outcomes of the two
resolution calls, of the temp-dir creation, and of each spawned image
task, plus whether a directory already exists at the final path. -/
structure EpInput where
  info : EpisodeInfo
  imageIndex : Except String (List String)
  imageToken : Except String (List String)
  createDirOk : Bool
  imageOk : List Bool
  finalDirExists : Bool
deriving DecidableEq

/-- `process_episode`, as the sequence of emitted events, filesystem
actions, and its unconsumed `anyhow::Result`.  Image tasks are modelled
as joined in spawn order; permit waits and the inter-episode sleep leave
only the recorded `sleep` action; the shared-counter reset check (lines
210..216 of the source) touches no traced effect and is modelled by
`CAct`. -/
def process_episode (cfg : Config) (inp : EpInput) : RunOut :=
  let pend := [Event.pending inp.info.episodeId inp.info.episodeTitle]
  match inp.imageIndex with
  | .error e => { events := pend, actions := [], result := .error e }
  | .ok _paths =>
    match inp.imageToken with
    | .error e => { events := pend, actions := [], result := .error e }
    | .ok urls =>
      let temp := get_ep_temp_download_dir cfg inp.info
      if inp.createDirOk = false then
        { events := pend, actions := [FsAction.createDirAll temp],
          result := .error "创建目录失败" }
      else
        let total := urls.length
        let tasks := (urls.zip inp.imageOk).enum
        let evs := pend ++ Event.start inp.info.episodeId inp.info.episodeTitle total
          :: imageEvents inp.info.episodeId temp total tasks 0 0
        let acts := FsAction.createDirAll temp
          :: imageWrites temp tasks ++ [FsAction.sleep cfg.episodeDownloadInterval]
        let current := (tasks.filter fun t => t.2.2).length
        if current ≠ total then
          { events := evs ++ [Event.ended inp.info.episodeId
              (some ("总共有 " ++ Nat.repr total ++ " 张图片，但只下载了 "
                ++ Nat.repr current ++ " 张"))],
            actions := acts, result := .ok () }
        else
          let ar := save_archive cfg inp.info temp (imageFiles tasks) inp.finalDirExists
          let errMsg := match ar.result with
            | .ok _ => none
            | .error e => some e
          { events := evs ++ ar.events ++ [Event.ended inp.info.episodeId errMsg],
            actions := acts ++ ar.actions, result := .ok () }

/-- Inputs of one `process_album_plus` run. -/
structure AlbumInput where
  item : AlbumPlusItem
  imageToken : Except String (List String)
  createDirOk : Bool
  imageOk : List Bool
deriving DecidableEq

/-- `process_album_plus`: single-step URL resolution, no inter-item
sleep, and a finalization that — unlike the episode path — never reads
the archive format and renames the temp workspace without any existence
check or deletion. -/
def process_album_plus (cfg : Config) (inp : AlbumInput) : RunOut :=
  let pend := [Event.pending inp.item.id inp.item.title]
  match inp.imageToken with
  | .error e => { events := pend, actions := [], result := .error e }
  | .ok urls =>
    let temp := get_album_plus_temp_download_dir cfg inp.item
    if inp.createDirOk = false then
      { events := pend, actions := [FsAction.createDirAll temp],
        result := .error "创建目录失败" }
    else
      let total := urls.length
      let tasks := (urls.zip inp.imageOk).enum
      let evs := pend ++ Event.start inp.item.id inp.item.title total
        :: imageEvents inp.item.id temp total tasks 0 0
      let acts := FsAction.createDirAll temp :: imageWrites temp tasks
      let current := (tasks.filter fun t => t.2.2).length
      if current = total then
        match temp with
        | [] =>
          { events := evs ++ [Event.ended inp.item.id none], actions := acts,
            result := .ok () }
        | _ :: _ =>
          { events := evs ++ [Event.ended inp.item.id none],
            actions := acts ++ [FsAction.rename temp (temp.dropLast ++ [inp.item.title])],
            result := .ok () }
      else
        { events := evs ++ [Event.ended inp.item.id
            (some ("总共有 " ++ Nat.repr total ++ " 张图片，但只下载了 "
              ++ Nat.repr current ++ " 张"))],
          actions := acts, result := .ok () }

/-- Whether an event is the terminal "end" event. -/
def isEnded : Event → Bool
  | .ended _ _ => true
  | _ => false

/-- Whether an action belongs to the zip archiver. -/
def isArchiverAction : FsAction → Bool
  | .createFile _ => true
  | .zipAddEntry _ _ => true
  | .zipFinish => true
  | _ => false

/-- Whether an action deletes a directory tree. -/
def isRemoveDir : FsAction → Bool
  | .removeDirAll _ => true
  | _ => false

/-- Concrete fixtures. -/
def cfgEx : Config :=
  { downloadDir := ["下载"], archiveFormat := .image, episodeDownloadInterval := 0 }

def epInfoEx : EpisodeInfo :=
  { episodeId := 7, episodeTitle := "第1话", comicTitle := "某漫画", comicInfoXml := .ok "xml" }

def albumEx : AlbumPlusItem :=
  { id := 9, title := "特典1", comicTitle := "某漫画", pic := ["p1"] }

def cfgZipEx : Config :=
  { downloadDir := ["下载"], archiveFormat := .zip, episodeDownloadInterval := 0 }

/-- C1: the item-processing tasks do not emit a terminal end event on
their early failure paths.  With a failed URL resolution, and with a
failed temp-directory creation, `process_episode` (and `process_album_plus`
alike) emits zero end events and returns an `Err` that nothing consumes —
the source's own TODO comments (`这里不应该返回错误，否则会被忽略`) call this
out — while the successful and partial-failure paths emit exactly one. -/
theorem c1_end_event_missing_on_early_failure :
    ((process_episode cfgEx
      { info := epInfoEx, imageIndex := .error "网络错误", imageToken := .error "网络错误",
        createDirOk := true, imageOk := [], finalDirExists := false }).events.filter
      isEnded).length = 0
    ∧ (process_episode cfgEx
      { info := epInfoEx, imageIndex := .error "网络错误", imageToken := .error "网络错误",
        createDirOk := true, imageOk := [], finalDirExists := false }).result
      = .error "网络错误"
    ∧ ((process_episode cfgEx
      { info := epInfoEx, imageIndex := .ok ["p1"], imageToken := .ok ["u1"],
        createDirOk := false, imageOk := [true], finalDirExists := false }).events.filter
      isEnded).length = 0
    ∧ ((process_album_plus cfgEx
      { item := albumEx, imageToken := .error "网络错误", createDirOk := true,
        imageOk := [] }).events.filter isEnded).length = 0
    ∧ ((process_episode cfgEx
      { info := epInfoEx, imageIndex := .ok ["p1"], imageToken := .ok ["u1"],
        createDirOk := true, imageOk := [true], finalDirExists := false }).events.filter
      isEnded).length = 1
    ∧ ((process_episode cfgEx
      { info := epInfoEx, imageIndex := .ok ["p1"], imageToken := .ok ["u1", "u2"],
        createDirOk := true, imageOk := [true, false], finalDirExists := false }).events.filter
      isEnded).length = 1 := by
  decide

theorem imageEvents_filter_ended (id : Int) (temp : Path) (total : Nat) :
    ∀ (tasks : List (Nat × String × Bool)) (s d : Nat),
      (imageEvents id temp total tasks s d).filter isEnded = []
  | [], _, _ => rfl
  | (i, url, ok) :: rest, s, d => by
    cases ok <;>
      simp [imageEvents, isEnded, List.filter_append,
        imageEvents_filter_ended id temp total rest]

theorem enumFrom_filter_snd :
    ∀ (l : List (String × Bool)) (k : Nat),
      ((List.enumFrom k l).filter fun t => t.2.2).length = (l.filter fun x => x.2).length
  | [], _ => rfl
  | a :: l, k => by
    cases hp : a.2 <;>
      simp [List.enumFrom_cons, List.filter, hp, enumFrom_filter_snd l (k + 1)]

theorem zip_filter_snd : ∀ (us : List String) (oks : List Bool), oks.length = us.length →
    ((us.zip oks).filter fun x => x.2).length = succCount oks
  | [], [], _ => rfl
  | [], _ :: _, h => by simp at h
  | _ :: _, [], h => by simp at h
  | u :: us, ok :: oks, h => by
    have ih := zip_filter_snd us oks (by simp at h; omega)
    cases ok
    · show ((us.zip oks).filter fun x => x.2).length = succCount oks
      exact ih
    · show ((us.zip oks).filter fun x => x.2).length + 1 = succCount oks + 1
      rw [ih]

theorem current_eq_succCount (urls : List String) (oks : List Bool)
    (h : oks.length = urls.length) :
    (((urls.zip oks).enum).filter fun t => t.2.2).length = succCount oks := by
  rw [show (urls.zip oks).enum = (urls.zip oks).enumFrom 0 from rfl,
    enumFrom_filter_snd (urls.zip oks) 0]
  exact zip_filter_snd urls oks h

theorem process_episode_partial_shape (cfg : Config) (info : EpisodeInfo)
    (paths urls : List String) (oks : List Bool) (fde : Bool)
    (hfail : (((urls.zip oks).enum).filter fun t => t.2.2).length ≠ urls.length) :
    process_episode cfg
      { info := info, imageIndex := .ok paths, imageToken := .ok urls,
        createDirOk := true, imageOk := oks, finalDirExists := fde } =
      { events := Event.pending info.episodeId info.episodeTitle
          :: Event.start info.episodeId info.episodeTitle urls.length
          :: imageEvents info.episodeId (get_ep_temp_download_dir cfg info) urls.length
              ((urls.zip oks).enum) 0 0
          ++ [Event.ended info.episodeId
              (some ("总共有 " ++ Nat.repr urls.length ++ " 张图片，但只下载了 "
                ++ Nat.repr (((urls.zip oks).enum).filter fun t => t.2.2).length ++ " 张"))],
        actions := FsAction.createDirAll (get_ep_temp_download_dir cfg info)
          :: imageWrites (get_ep_temp_download_dir cfg info) ((urls.zip oks).enum)
          ++ [FsAction.sleep cfg.episodeDownloadInterval],
        result := .ok () } := by
  simp only [process_episode]
  rw [if_neg (by simp), if_pos hfail]
  rfl

theorem process_album_plus_partial_shape (cfg : Config) (item : AlbumPlusItem)
    (urls : List String) (oks : List Bool)
    (hfail : (((urls.zip oks).enum).filter fun t => t.2.2).length ≠ urls.length) :
    process_album_plus cfg
      { item := item, imageToken := .ok urls, createDirOk := true, imageOk := oks } =
      { events := Event.pending item.id item.title
          :: Event.start item.id item.title urls.length
          :: imageEvents item.id (get_album_plus_temp_download_dir cfg item) urls.length
              ((urls.zip oks).enum) 0 0
          ++ [Event.ended item.id
              (some ("总共有 " ++ Nat.repr urls.length ++ " 张图片，但只下载了 "
                ++ Nat.repr (((urls.zip oks).enum).filter fun t => t.2.2).length ++ " 张"))],
        actions := FsAction.createDirAll (get_album_plus_temp_download_dir cfg item)
          :: imageWrites (get_album_plus_temp_download_dir cfg item) ((urls.zip oks).enum),
        result := .ok () } := by
  simp only [process_album_plus]
  rw [if_neg (by simp), if_neg hfail]
  rfl

/-- C7: for every item — Episode and AlbumPlus alike — whose per-item
completed count stays strictly below the number of resolved URLs, exactly
one end event is emitted and it carries the message naming both the total
image count and the completed count, the archiver is never invoked (no
archive-file creation, no entries, no finish), and the temp workspace is
neither deleted nor renamed. -/
theorem c7_not_all_downloaded (cfg : Config) (info : EpisodeInfo) (paths urls : List String)
    (oks : List Bool) (fde : Bool) (item : AlbumPlusItem) (urlsA : List String)
    (oksA : List Bool) (hlen : oks.length = urls.length)
    (hfail : succCount oks < urls.length) (hlenA : oksA.length = urlsA.length)
    (hfailA : succCount oksA < urlsA.length) :
    (((process_episode cfg
        { info := info, imageIndex := .ok paths, imageToken := .ok urls,
          createDirOk := true, imageOk := oks, finalDirExists := fde }).events.filter isEnded
      = [Event.ended info.episodeId
          (some ("总共有 " ++ Nat.repr urls.length ++ " 张图片，但只下载了 "
            ++ Nat.repr (succCount oks) ++ " 张"))])
    ∧ (∃ pre mid post : String,
        "总共有 " ++ Nat.repr urls.length ++ " 张图片，但只下载了 "
            ++ Nat.repr (succCount oks) ++ " 张"
          = pre ++ Nat.repr urls.length ++ mid ++ Nat.repr (succCount oks) ++ post)
    ∧ (∀ a ∈ (process_episode cfg
        { info := info, imageIndex := .ok paths, imageToken := .ok urls,
          createDirOk := true, imageOk := oks, finalDirExists := fde }).actions,
        isArchiverAction a = false ∧ isRemoveDir a = false
          ∧ ∀ q, a ≠ FsAction.rename (get_ep_temp_download_dir cfg info) q))
    ∧ (((process_album_plus cfg
        { item := item, imageToken := .ok urlsA, createDirOk := true,
          imageOk := oksA }).events.filter isEnded
      = [Event.ended item.id
          (some ("总共有 " ++ Nat.repr urlsA.length ++ " 张图片，但只下载了 "
            ++ Nat.repr (succCount oksA) ++ " 张"))])
    ∧ (∃ pre mid post : String,
        "总共有 " ++ Nat.repr urlsA.length ++ " 张图片，但只下载了 "
            ++ Nat.repr (succCount oksA) ++ " 张"
          = pre ++ Nat.repr urlsA.length ++ mid ++ Nat.repr (succCount oksA) ++ post)
    ∧ (∀ a ∈ (process_album_plus cfg
        { item := item, imageToken := .ok urlsA, createDirOk := true,
          imageOk := oksA }).actions,
        isArchiverAction a = false ∧ isRemoveDir a = false
          ∧ ∀ q, a ≠ FsAction.rename (get_album_plus_temp_download_dir cfg item) q)) := by
  have hcur := current_eq_succCount urls oks hlen
  have hshape := process_episode_partial_shape cfg info paths urls oks fde (by rw [hcur]; omega)
  have hcurA := current_eq_succCount urlsA oksA hlenA
  have hshapeA := process_album_plus_partial_shape cfg item urlsA oksA (by rw [hcurA]; omega)
  refine ⟨⟨?_, ⟨"总共有 ", " 张图片，但只下载了 ", " 张", rfl⟩, ?_⟩,
    ⟨?_, ⟨"总共有 ", " 张图片，但只下载了 ", " 张", rfl⟩, ?_⟩⟩
  · rw [hshape]
    simp [isEnded, List.filter_append, imageEvents_filter_ended, hcur]
  · rw [hshape]
    intro a ha
    rcases List.mem_cons.mp ha with rfl | ha2
    · exact ⟨rfl, rfl, fun q => by simp⟩
    · rcases List.mem_append.mp ha2 with hw | hs
      · obtain ⟨t, -, hsome⟩ := List.mem_filterMap.mp hw
        by_cases htt : t.2.2
        · rw [if_pos htt] at hsome
          injection hsome with hEq
          subst hEq
          exact ⟨rfl, rfl, fun q => by simp⟩
        · rw [if_neg htt] at hsome
          simp at hsome
      · rcases List.mem_singleton.mp hs with rfl
        exact ⟨rfl, rfl, fun q => by simp⟩
  · rw [hshapeA]
    simp [isEnded, List.filter_append, imageEvents_filter_ended, hcurA]
  · rw [hshapeA]
    intro a ha
    rcases List.mem_cons.mp ha with rfl | ha2
    · exact ⟨rfl, rfl, fun q => by simp⟩
    · obtain ⟨t, -, hsome⟩ := List.mem_filterMap.mp ha2
      by_cases htt : t.2.2
      · rw [if_pos htt] at hsome
        injection hsome with hEq
        subst hEq
        exact ⟨rfl, rfl, fun q => by simp⟩
      · rw [if_neg htt] at hsome
        simp at hsome

theorem c7_not_all_downloaded_witness :
    (((process_episode cfgEx
        { info := epInfoEx, imageIndex := .ok [], imageToken := .ok ["u1", "u2", "u3", "u4", "u5"],
          createDirOk := true, imageOk := [true, true, true, false, false],
          finalDirExists := false }).events.filter isEnded
      = [Event.ended 7 (some "总共有 5 张图片，但只下载了 3 张")])
    ∧ (∃ pre mid post : String,
        "总共有 5 张图片，但只下载了 3 张" = pre ++ "5" ++ mid ++ "3" ++ post)
    ∧ (∀ a ∈ (process_episode cfgEx
        { info := epInfoEx, imageIndex := .ok [], imageToken := .ok ["u1", "u2", "u3", "u4", "u5"],
          createDirOk := true, imageOk := [true, true, true, false, false],
          finalDirExists := false }).actions,
        isArchiverAction a = false ∧ isRemoveDir a = false
          ∧ ∀ q, a ≠ FsAction.rename (get_ep_temp_download_dir cfgEx epInfoEx) q))
    ∧ (((process_album_plus cfgEx
        { item := albumEx, imageToken := .ok ["v1", "v2"], createDirOk := true,
          imageOk := [true, false] }).events.filter isEnded
      = [Event.ended 9 (some "总共有 2 张图片，但只下载了 1 张")])
    ∧ (∃ pre mid post : String,
        "总共有 2 张图片，但只下载了 1 张" = pre ++ "2" ++ mid ++ "1" ++ post)
    ∧ (∀ a ∈ (process_album_plus cfgEx
        { item := albumEx, imageToken := .ok ["v1", "v2"], createDirOk := true,
          imageOk := [true, false] }).actions,
        isArchiverAction a = false ∧ isRemoveDir a = false
          ∧ ∀ q, a ≠ FsAction.rename (get_album_plus_temp_download_dir cfgEx albumEx) q)) :=
  c7_not_all_downloaded cfgEx epInfoEx [] ["u1", "u2", "u3", "u4", "u5"]
    [true, true, true, false, false] false albumEx ["v1", "v2"] [true, false]
    (by decide) (by decide) (by decide) (by decide)

theorem succCount_replicate_true : ∀ n : Nat, succCount (List.replicate n true) = n
  | 0 => rfl
  | n + 1 => by
    have ih := succCount_replicate_true n
    simp only [succCount] at ih ⊢
    simp [List.replicate_succ, List.filter, ih]

/-- C8 (counterexample): a fully successful AlbumPlus item with the
configured archive format zip is finalized by a bare rename: the zip
archiver is never invoked and no existing directory is deleted first (the
code performs no existence check at all on this path), contradicting both
the overwrite clause and "the chosen archive format determines the
finalization strategy for both variants alike". -/
theorem c8_counterexample_album_ignores_format :
    ((process_album_plus cfgZipEx
      { item := albumEx, imageToken := .ok ["u1"], createDirOk := true,
        imageOk := [true] }).actions
      = [FsAction.createDirAll ["下载", "某漫画", "特典", ".下载中-特典1"],
         FsAction.writeFile ["下载", "某漫画", "特典", ".下载中-特典1", "001.jpg"] "u1",
         FsAction.rename ["下载", "某漫画", "特典", ".下载中-特典1"]
           ["下载", "某漫画", "特典", "特典1"]])
    ∧ ((process_album_plus cfgZipEx
      { item := albumEx, imageToken := .ok ["u1"], createDirOk := true,
        imageOk := [true] }).actions.all
      fun a => !(isArchiverAction a) && !(isRemoveDir a)) = true := by
  decide

/-- C8 (amended): for Episodes finalized as a plain directory, an existing
directory at the final path is recursively deleted before the temp
workspace is renamed onto it (and no deletion happens when none exists);
AlbumPlus items, however, ignore the configured archive format entirely —
their whole run is unchanged under any format — and are finalized by a
bare rename with no existence check and no deletion. -/
theorem c8_finalization_strategies :
    (∀ (cfg : Config) (info : EpisodeInfo) (d : String) (rest : List String)
        (files : List (String × String)),
      (save_archive { cfg with archiveFormat := .image } info (d :: rest) files true).actions
        = [FsAction.removeDirAll ((d :: rest).dropLast ++ [info.episodeTitle]),
           FsAction.rename (d :: rest) ((d :: rest).dropLast ++ [info.episodeTitle])]
      ∧ (save_archive { cfg with archiveFormat := .image } info (d :: rest) files false).actions
        = [FsAction.rename (d :: rest) ((d :: rest).dropLast ++ [info.episodeTitle])])
    ∧ (∀ (dd : Path) (f1 f2 : ArchiveFormat) (i1 i2 : Nat) (inp : AlbumInput),
        process_album_plus ⟨dd, f1, i1⟩ inp = process_album_plus ⟨dd, f2, i2⟩ inp)
    ∧ (∀ (dd : Path) (fmt : ArchiveFormat) (itv : Nat) (item : AlbumPlusItem)
        (urls : List String),
        (process_album_plus ⟨dd, fmt, itv⟩
          { item := item, imageToken := .ok urls, createDirOk := true,
            imageOk := List.replicate urls.length true }).actions
          = FsAction.createDirAll (get_album_plus_temp_download_dir ⟨dd, fmt, itv⟩ item)
            :: imageWrites (get_album_plus_temp_download_dir ⟨dd, fmt, itv⟩ item)
                ((urls.zip (List.replicate urls.length true)).enum)
            ++ [FsAction.rename (get_album_plus_temp_download_dir ⟨dd, fmt, itv⟩ item)
                ((get_album_plus_temp_download_dir ⟨dd, fmt, itv⟩ item).dropLast
                  ++ [item.title])]) := by
  refine ⟨?_, ?_, ?_⟩
  · intro cfg info d rest files
    exact ⟨rfl, rfl⟩
  · intro dd f1 f2 i1 i2 inp
    rfl
  · intro dd fmt itv item urls
    have hcur : (((urls.zip (List.replicate urls.length true)).enum).filter
        fun t => t.2.2).length = urls.length := by
      rw [current_eq_succCount urls _ (by simp)]
      exact succCount_replicate_true urls.length
    cases dd with
    | nil =>
      simp only [process_album_plus, get_album_plus_temp_download_dir, List.nil_append,
        List.cons_append]
      rw [if_neg (by simp), if_pos hcur]
    | cons x xs =>
      simp only [process_album_plus, get_album_plus_temp_download_dir, List.cons_append]
      rw [if_neg (by simp), if_pos hcur]

/-- C9 (counterexample): archiving a temp workspace holding exactly
{001.jpg, 002.jpg} with format zip does NOT produce an archive with
exactly those two entries: the injected ComicInfo.xml metadata file (which
the code writes for Zip as well as Cbz) is a third entry. -/
theorem c9_counterexample_comicinfo_entry :
    ¬ ((save_archive cfgZipEx epInfoEx ["下载", "某漫画", ".下载中-第1话"]
        [("001.jpg", "b1"), ("002.jpg", "b2")] false).zipEntries.map Prod.fst).Perm
      ["001.jpg", "002.jpg"] := by
  decide

/-- C9 (amended): archiving a temp workspace holding exactly
{001.jpg, 002.jpg} with format zip first writes the serialized metadata
into the workspace, then produces an archive holding exactly the three
entries 001.jpg and 002.jpg — with bytes matching the workspace files —
plus ComicInfo.xml, and deletes the temp workspace recursively after the
archive is finished. -/
theorem c9_zip_archive_contents (dd : Path) (itv : Nat) (idv : Int)
    (et ct xml d : String) (rest : List String) (b1 b2 : String) (fde : Bool) :
    save_archive ⟨dd, .zip, itv⟩ ⟨idv, et, ct, .ok xml⟩ (d :: rest)
        [("001.jpg", b1), ("002.jpg", b2)] fde
      = { actions := [FsAction.writeFile ((d :: rest) ++ ["ComicInfo.xml"]) xml,
            FsAction.createFile ((d :: rest).dropLast ++ [et ++ "." ++ "zip"]),
            FsAction.zipAddEntry "001.jpg" b1, FsAction.zipAddEntry "002.jpg" b2,
            FsAction.zipAddEntry "ComicInfo.xml" xml, FsAction.zipFinish,
            FsAction.removeDirAll (d :: rest)],
          events := [],
          zipEntries := [("001.jpg", b1), ("002.jpg", b2), ("ComicInfo.xml", xml)],
          result := .ok () } := rfl

/-- Spawn-time assignment of the download loops: before any download runs,
the URL at 0-based index `i` is paired with the destination filename
`format!("{:03}.jpg", i + 1)`. -/
def spawnAssignments (urls : List String) : List (String × String) :=
  urls.enum.map fun p => (savePathName p.1, p.2)

/-- Completion in an arbitrary order: tasks finish in the order given by
`order` (indices into the spawned tasks); each finished task produces
exactly the file it was assigned at spawn time. -/
def completeInOrder (tasks : List (String × String)) (order : List Nat) :
    List (String × String) :=
  order.filterMap fun i => tasks[i]?

theorem filterMap_getElem?_range {α : Type} :
    ∀ (l : List α), (List.range l.length).filterMap (fun i => l[i]?) = l
  | [] => rfl
  | a :: l => by
    rw [List.length_cons, List.range_succ_eq_map]
    simp only [List.filterMap_cons, List.getElem?_cons_zero, List.filterMap_map]
    have hfun : ((fun i => (a :: l)[i]?) ∘ Nat.succ) = fun i => l[i]? := by
      funext i
      simp
    rw [hfun, filterMap_getElem?_range l]

/-- C6: the destination filename of the image at 1-based ordinal `i + 1`
is the ordinal zero-padded to three digits with extension `.jpg`, fixed at
resolution time; and for every completion order that is a permutation of
the spawned tasks, the set of produced (filename, url) pairs is exactly
the spawn-time assignment — independent of the order in which downloads
complete. -/
theorem c6_filename_by_ordinal (urls : List String) (i : Nat) (h : i < urls.length)
    (order : List Nat) (hperm : order.Perm (List.range urls.length)) :
    (spawnAssignments urls)[i]? = some (pad3 (i + 1) ++ ".jpg", urls.get ⟨i, h⟩)
    ∧ (completeInOrder (spawnAssignments urls) order).Perm (spawnAssignments urls) := by
  constructor
  · simp only [spawnAssignments, List.getElem?_map,
      show urls.enum = urls.enumFrom 0 from rfl, List.getElem?_enumFrom,
      List.getElem?_eq_getElem h, Option.map_some]
    simp [savePathName, List.get_eq_getElem]
  · have hlen : (spawnAssignments urls).length = urls.length := by
      simp [spawnAssignments, show urls.enum = urls.enumFrom 0 from rfl]
    have h3 := List.Perm.filterMap (fun i => (spawnAssignments urls)[i]?) hperm
    rw [← hlen] at h3
    exact h3.trans (by rw [filterMap_getElem?_range])

theorem c6_filename_by_ordinal_witness :
    (spawnAssignments ["A", "B", "C"])[0]? = some ("001.jpg", "A")
    ∧ (completeInOrder (spawnAssignments ["A", "B", "C"]) [2, 0, 1]).Perm
        (spawnAssignments ["A", "B", "C"]) :=
  c6_filename_by_ordinal ["A", "B", "C"] 0 (by decide) [2, 0, 1] (by decide)

end BMD
